import Mathlib

/-!
Verification of the LAS_CSV_Converter repository (LAS_CSV_Converter.py).

The development shallowly embeds the parts of the script that the design
document's claims are about: the scale/offset coordinate codec, the CSV
header and row writer, the bulk-call response parsing, the height-code
column extraction, the height-correction merge, and the single-point
web-service state updates.  Machine arithmetic is modelled over exact
rationals; the `requests` and `laspy` libraries are external collaborators,
so only the data transformations performed by the script itself appear.
-/

namespace LASCSV

/-- Decode a raw integer coordinate to a real-world coordinate.
Embeds the expressions of lines 344-349 (and 410-415):
`outValue = (attribute * scale) + offset`. -/
def decode (r : ℤ) (s o : ℚ) : ℚ := r * s + o

/-- Encode a real-world value to a raw integer coordinate.
Lines 494-495 compute `(h - z_offset) / z_scale`; the result is then
stored into the integer-typed raw `Z` column of the LAS point records
(line 499), which rounds to the nearest representable integer at the
sink boundary (the LAS codec is an external collaborator; its sink
contract is round-to-nearest per the design document). -/
def encode (v s o : ℚ) : ℤ := round ((v - o) / s)

/-- Claim C2: round-trip invariant of the ScaledPoint codec: for every
ScaleOffset with strictly positive scale and every raw integer `r`,
`encode (decode r s o) s o = r`. -/
theorem encode_decode_roundtrip (r : ℤ) (s o : ℚ) (hs : 0 < s) :
    encode (decode r s o) s o = r := by
  unfold encode decode
  have hs0 : s ≠ 0 := ne_of_gt hs
  have h : ((r : ℚ) * s + o - o) / s = (r : ℚ) := by
    rw [add_sub_cancel_right, mul_div_cancel_right₀ _ hs0]
  rw [h, round_intCast]

/-- Witness for C2 at scale 1/2, offset 3, raw value 7. -/
theorem encode_decode_roundtrip_witness :
    (0 : ℚ) < 1 / 2 ∧ encode (decode 7 (1 / 2) 3) (1 / 2) 3 = 7 :=
  ⟨by norm_num, encode_decode_roundtrip 7 (1 / 2) 3 (by norm_num)⟩

/-- Counterexample to claim C3: with scale 0.0001 and offset 329999.8947,
decoding the raw integer 1000 does NOT yield 330000.0
(it yields 0.1 + 329999.8947 = 329999.9947). -/
theorem scenario1_decode_counterexample :
    decode 1000 (0.0001 : ℚ) (329999.8947 : ℚ) ≠ (330000.0 : ℚ) := by
  norm_num [decode]

/-- Claim C3 (amended): decoding raw 1000 with scale 0.0001 and offset
329999.8947 yields exactly 329999.9947. -/
theorem scenario1_decode_value :
    decode 1000 (0.0001 : ℚ) (329999.8947 : ℚ) = (329999.9947 : ℚ) := by
  norm_num [decode]

/-- Counterexample to claim C4: the codec performs no scale validation and
raises no ConfigurationError; decoding the raw value 1000 with scale 0 and
offset 5 produces the numeric result 5 rather than failing fast. -/
theorem scale_zero_counterexample : decode 1000 0 5 = 5 := by
  norm_num [decode]

/-- Claim C4 (amended): no ConfigurationError path exists in the code; the
decode expression is total, and with scale 0 it returns the offset as a
numeric result for every raw value. -/
theorem decode_no_scale_validation (r : ℤ) (o : ℚ) : decode r 0 o = o := by
  simp [decode]

/-- An open LAS point stream, reduced to its three raw coordinate columns
(`readStream.X`, `readStream.Y`, `readStream.Z` are integer-typed arrays). -/
structure PointSet where
  X : List ℤ
  Y : List ℤ
  Z : List ℤ

/-- The loop of `extract_height` (lines 450-452):
`for i in range(len(header)): if header[i] == height_code: res.append(i)`,
with `start` the current loop index. -/
def height_indices_go (code : String) : ℕ → List String → List ℕ
  | _, [] => []
  | start, a :: t =>
      (if a = code then [start] else []) ++ height_indices_go code (start + 1) t

/-- All indices of header columns equal to the height code, ascending. -/
def height_indices (header : List String) (code : String) : List ℕ :=
  height_indices_go code 0 header

/-- Embeds `extract_height` (lines 446-454): the first matrix row is the
header, `res` collects the matching column indices, and the result is
column `res[0]` of every remaining row (`matrix[1:, res[0]]`).  When `res`
is empty, `res[0]` raises an IndexError (a Python LookupError); this and
the empty-matrix IndexError are the `none` result. -/
def extract_height (matrix : List (List String)) (code : String) :
    Option (List String) :=
  match matrix with
  | [] => none
  | header :: rest =>
    match height_indices header code with
    | [] => none
    | i :: _ => some (rest.map (fun row => row.getD i ""))

/-- Embeds the module-level batch merge (lines 493-499):
`new_heights = extract_height(matrix, code).astype(np.float)` (the
string-to-number conversion is the parameter `pf`), then
`new_heights[i] = (new_heights[i] - z_offset) / z_scale` for every row,
then `rwStream.Z = new_heights`, which replaces the whole raw Z column
(the integer-typed sink rounds each stored value, see `encode`).
The `error` case is the IndexError escaping from `extract_height`. -/
def batch_merge (pf : String → ℚ) (matrix : List (List String)) (code : String)
    (s o : ℚ) (ps : PointSet) : Except Unit PointSet :=
  match extract_height matrix code with
  | none => Except.error ()
  | some col => Except.ok { ps with Z := col.map (fun c => encode (pf c) s o) }

theorem height_indices_go_eq_nil (code : String) :
    ∀ (t : List String) (start : ℕ),
      height_indices_go code start t = [] ↔ code ∉ t := by
  intro t
  induction t with
  | nil => intro start; simp [height_indices_go]
  | cons a t ih =>
      intro start
      by_cases ha : a = code
      · simp [height_indices_go, ha]
      · simp only [height_indices_go, if_neg ha, List.nil_append, ih,
          List.mem_cons]
        constructor
        · intro h hc
          rcases hc with hc | hc
          · exact ha hc.symm
          · exact h hc
        · intro h hc
          exact h (Or.inr hc)

theorem height_indices_go_first (code : String) :
    ∀ (t : List String) (start : ℕ), code ∈ t →
      ∃ k, height_indices_go code start t ≠ [] ∧
        (height_indices_go code start t).headD 0 = start + k ∧
        t.getD k "" = code ∧
        ∀ j, j < k → t.getD j "" ≠ code := by
  intro t
  induction t with
  | nil => intro start h; exact absurd h (List.not_mem_nil code)
  | cons a t ih =>
      intro start hmem
      by_cases ha : a = code
      · refine ⟨0, ?_, ?_, ?_, ?_⟩
        · simp [height_indices_go, ha]
        · simp [height_indices_go, ha]
        · simpa using ha
        · intro j hj; omega
      · have hmem' : code ∈ t := by
          rcases List.mem_cons.mp hmem with h | h
          · exact absurd h.symm ha
          · exact h
        obtain ⟨k, hne, hhead, hget, hfirst⟩ := ih (start + 1) hmem'
        refine ⟨k + 1, ?_, ?_, ?_, ?_⟩
        · simpa [height_indices_go, if_neg ha] using hne
        · simp only [height_indices_go, if_neg ha, List.nil_append]
          rw [hhead]; omega
        · simpa using hget
        · intro j hj
          match j with
          | 0 => simpa using ha
          | j + 1 =>
              have : j < k := by omega
              simpa using hfirst j this

/-- Claim C7: when the header contains the height code, the lookup index is
the first matching header column and the extracted sequence is that column
over all data rows in row order; when the header contains no match, the
extraction fails (IndexError, a Python LookupError) instead of returning a
value. -/
theorem extract_height_lookup (header : List String) (rows : List (List String))
    (code : String) :
    (code ∈ header →
      height_indices header code ≠ [] ∧
      header.getD ((height_indices header code).headD 0) "" = code ∧
      (∀ j, j < (height_indices header code).headD 0 →
        header.getD j "" ≠ code) ∧
      extract_height (header :: rows) code =
        some (rows.map (fun row =>
          row.getD ((height_indices header code).headD 0) ""))) ∧
    (code ∉ header → extract_height (header :: rows) code = none) := by
  constructor
  · intro hmem
    obtain ⟨k, hne, hhead, hget, hfirst⟩ :=
      height_indices_go_first code header 0 hmem
    have hhead' : (height_indices header code).headD 0 = k := by
      simpa [height_indices] using hhead
    refine ⟨by simpa [height_indices] using hne, ?_, ?_, ?_⟩
    · rw [hhead']; exact hget
    · intro j hj; rw [hhead'] at hj; exact hfirst j hj
    · rcases hcase : height_indices header code with _ | ⟨i, more⟩
      · exact absurd hcase (by simpa [height_indices] using hne)
      · simp only [extract_height, List.headD_cons]
        rw [hcase]
  · intro hmem
    have h0 : height_indices header code = [] :=
      (height_indices_go_eq_nil code header 0).mpr hmem
    simp only [extract_height, height_indices] at h0 ⊢
    rw [h0]

/-- Witness for C7: the scenario-3 header with height code H2013 selects
column index 2 and extracts that column over both data rows. -/
theorem extract_height_lookup_witness :
    "H2013" ∈ ["utm_e", "utm_n", "H2013", "utm_z"] ∧
    extract_height
        [["utm_e", "utm_n", "H2013", "utm_z"],
         ["1", "2", "3", "4"], ["5", "6", "7", "8"]] "H2013" =
      some ([["1", "2", "3", "4"], ["5", "6", "7", "8"]].map (fun row =>
        row.getD ((height_indices ["utm_e", "utm_n", "H2013", "utm_z"]
          "H2013").headD 0) "")) :=
  ⟨by decide,
   ((extract_height_lookup ["utm_e", "utm_n", "H2013", "utm_z"]
      [["1", "2", "3", "4"], ["5", "6", "7", "8"]] "H2013").1
      (by decide)).2.2.2⟩

/-- Evaluation helper: the encode expression applied to a value whose
scaled difference is an exact integer returns that integer. -/
theorem encode_eq_of_div (v s o : ℚ) (n : ℤ) (h : (v - o) / s = (n : ℚ)) :
    encode v s o = n := by
  unfold encode
  rw [h, round_intCast]

/-- A concrete stand-in for numpy's `astype(np.float)` string-to-number
conversion, used by the closed witness statements. -/
def fixed_height : String → ℚ := fun _ => 2

/-- Claim C1: for a target PointSet whose Z column has as many entries as
the ResponseTable has data rows, the batch merge replaces the whole raw Z
column with the encoded response heights, row `i` of the response mapping
to point `i`, and leaves X and Y unchanged. -/
theorem merge_alignment (pf : String → ℚ) (matrix : List (List String))
    (code : String) (s o : ℚ) (ps : PointSet) (col : List String)
    (hcol : extract_height matrix code = some col)
    (hlen : col.length = ps.Z.length) :
    batch_merge pf matrix code s o ps =
      Except.ok ⟨ps.X, ps.Y, col.map (fun c => encode (pf c) s o)⟩ ∧
    ∀ i, i < ps.Z.length →
      (col.map (fun c => encode (pf c) s o)).getD i 0 =
        encode (pf (col.getD i "")) s o := by
  constructor
  · simp only [batch_merge]
    rw [hcol]
  · intro i hi
    have hi' : i < col.length := by omega
    rw [List.getD_eq_getElem?_getD, List.getElem?_map,
      List.getD_eq_getElem?_getD, List.getElem?_eq_getElem hi']
    rfl

/-- Witness for C1: a one-column response with two data rows merged onto a
two-point target replaces both Z values with the encoded heights. -/
theorem merge_alignment_witness :
    extract_height [["H2013"], ["a"], ["b"]] "H2013" = some ["a", "b"] ∧
    (["a", "b"] : List String).length = ([5, 6] : List ℤ).length ∧
    batch_merge fixed_height [["H2013"], ["a"], ["b"]] "H2013" 1 0
        ⟨[1, 2], [3, 4], [5, 6]⟩ =
      Except.ok ⟨[1, 2], [3, 4], [2, 2]⟩ := by
  refine ⟨by decide, by decide, ?_⟩
  have h := (merge_alignment fixed_height [["H2013"], ["a"], ["b"]] "H2013"
    1 0 ⟨[1, 2], [3, 4], [5, 6]⟩ ["a", "b"] (by decide) (by decide)).1
  rw [h]
  have he : encode (fixed_height "a") 1 0 = 2 :=
    encode_eq_of_div _ _ _ 2 (by norm_num [fixed_height])
  have he' : encode (fixed_height "b") 1 0 = 2 :=
    encode_eq_of_div _ _ _ 2 (by norm_num [fixed_height])
  simp [he, he']

/-- Counterexample to claim C5: merging a three-row response onto a
two-point target raises no AlignmentError: the merge succeeds and replaces
the whole Z column with all three encoded heights. -/
theorem merge_misaligned_counterexample :
    batch_merge fixed_height [["H2013"], ["1"], ["2"], ["3"]] "H2013" 1 0
        ⟨[10, 20], [30, 40], [50, 60]⟩ =
      Except.ok ⟨[10, 20], [30, 40], [2, 2, 2]⟩ ∧
    ([50, 60] : List ℤ).length ≠ ([2, 2, 2] : List ℤ).length := by
  constructor
  · have he : encode (fixed_height "1") 1 0 = 2 :=
      encode_eq_of_div _ _ _ 2 (by norm_num [fixed_height])
    have he2 : encode (fixed_height "2") 1 0 = 2 :=
      encode_eq_of_div _ _ _ 2 (by norm_num [fixed_height])
    have he3 : encode (fixed_height "3") 1 0 = 2 :=
      encode_eq_of_div _ _ _ 2 (by norm_num [fixed_height])
    simp only [batch_merge, extract_height, height_indices, height_indices_go]
    norm_num [he, he2, he3]
  · decide

/-- Claim C5 (amended): the batch merge performs no row-count validation:
whenever the column extraction succeeds, the merge returns a result that
replaces the whole Z column with the encoded response heights, regardless
of whether the response row count matches the target point count. -/
theorem merge_no_alignment_check (pf : String → ℚ)
    (matrix : List (List String)) (code : String) (s o : ℚ) (ps : PointSet)
    (col : List String) (hcol : extract_height matrix code = some col) :
    batch_merge pf matrix code s o ps =
      Except.ok ⟨ps.X, ps.Y, col.map (fun c => encode (pf c) s o)⟩ := by
  simp only [batch_merge]
  rw [hcol]

/-- Witness for the amended C5 at a misaligned input: one point against two
response rows still merges. -/
theorem merge_no_alignment_check_witness :
    extract_height [["H2013"], ["p"], ["q"]] "H2013" = some ["p", "q"] ∧
    batch_merge fixed_height [["H2013"], ["p"], ["q"]] "H2013" 1 0
        ⟨[7], [8], [9]⟩ =
      Except.ok ⟨[7], [8], List.map (fun c => encode (fixed_height c) 1 0)
        ["p", "q"]⟩ :=
  ⟨by decide,
   merge_no_alignment_check fixed_height [["H2013"], ["p"], ["q"]] "H2013"
     1 0 ⟨[7], [8], [9]⟩ ["p", "q"] (by decide)⟩

/-- Split a character list at every occurrence of a one-character
separator, keeping empty segments, exactly like Python's `str.split` with
an explicit separator (so the empty text yields one empty segment). -/
def split_char (sep : Char) : List Char → List (List Char)
  | [] => [[]]
  | c :: rest =>
      let r := split_char sep rest
      if c = sep then [] :: r else (c :: r.headD []) :: r.tail

/-- Python's `text.split(sep)` for a one-character separator, on `String`. -/
def split_str (text : String) (sep : Char) : List String :=
  (split_char sep text.toList).map (fun cs => String.mk cs)

/-- Embeds the response parsing of `WebService.batch_call` (lines 216-231):
`data = req.text.split("\n")`, the first line is popped as the header and
split on commas, and each remaining line is split on commas and appended
to the matrix only when its field count equals the header's. -/
def batch_call_matrix (text : String) : List (List String) :=
  let data := split_str text '\n'
  let header := split_str (data.headD "") ','
  header ::
    (data.tail.map (fun row => split_str row ',')).filter
      (fun r => r.length = header.length)

/-- Claim C6: for every raw response text, every data row of the parsed
matrix has the same column count as the header row, and the data rows are
exactly the input rows whose field count equals the header's (mismatched
rows are dropped, and no row causes an exception: the parser is total). -/
theorem batch_call_matrix_rectangular (text : String) :
    (∀ row ∈ (batch_call_matrix text).tail,
      row.length = ((batch_call_matrix text).headD []).length) ∧
    (batch_call_matrix text).tail =
      ((split_str text '\n').tail.map (fun row => split_str row ',')).filter
        (fun r => r.length = ((batch_call_matrix text).headD []).length) := by
  constructor
  · intro row hrow
    have hrow' : row ∈ ((split_str text '\n').tail.map
        (fun r => split_str r ',')).filter (fun r =>
          r.length = (split_str ((split_str text '\n').headD "") ',').length) :=
      hrow
    exact of_decide_eq_true (List.mem_filter.mp hrow').2
  · rfl

/-- Witness for C6: in the response text `a,b\nc,d\ne`, the two-field row
is kept and matches the header width. -/
theorem batch_call_matrix_rectangular_witness :
    (["c", "d"] : List String) ∈ (batch_call_matrix "a,b\nc,d\ne").tail ∧
    (["c", "d"] : List String).length =
      ((batch_call_matrix "a,b\nc,d\ne").headD []).length :=
  ⟨by decide,
   (batch_call_matrix_rectangular "a,b\nc,d\ne").1 ["c", "d"] (by decide)⟩

/-- Embeds `FileInfo.__init__` (lines 139-151): metadata of a decoded LAS
source.  Numeric scales and offsets are exact rationals. -/
structure FileInfo where
  num_points : ℕ
  x_offset : ℚ
  y_offset : ℚ
  z_offset : ℚ
  x_scale : ℚ
  y_scale : ℚ
  z_scale : ℚ
  header_size : ℕ
  attributes : List String

/-- The loop of `FileInfo.get_header` (lines 153-164): `index` starts at 0
and is incremented before each attribute is appended; a comma follows the
attribute while `index < header_size`.  The accumulator concatenation is
re-associated to the right. -/
def get_header_go (header_size : ℕ) : ℕ → List String → String
  | _, [] => ""
  | index, att :: rest =>
      att ++ (if index + 1 < header_size then "," else "") ++
        get_header_go header_size (index + 1) rest

/-- Embeds `FileInfo.get_header`. -/
def get_header (info : FileInfo) : String :=
  get_header_go info.header_size 0 info.attributes

/-- Modelled from the spec: the header described by the design document,
the attribute names joined by commas in original order with no trailing
delimiter. -/
def join_comma_spec : List String → String
  | [] => ""
  | [a] => a
  | a :: b :: rest => a ++ "," ++ join_comma_spec (b :: rest)

theorem get_header_go_eq_join :
    ∀ (attrs : List String) (index hs : ℕ), hs = index + attrs.length →
      get_header_go hs index attrs = join_comma_spec attrs := by
  intro attrs
  induction attrs with
  | nil => intro index hs h; rfl
  | cons a rest ih =>
      intro index hs h
      match rest with
      | [] =>
          have hlt : ¬ index + 1 < hs := by
            simp only [List.length_cons, List.length_nil] at h; omega
          simp [get_header_go, join_comma_spec, hlt]
      | b :: t =>
          have hlt : index + 1 < hs := by
            simp only [List.length_cons] at h; omega
          have hs' : hs = (index + 1) + (b :: t).length := by
            simp only [List.length_cons] at h ⊢; omega
          rw [get_header_go, if_pos hlt, ih (index + 1) hs hs']
          rfl

/-- Claim C8: whenever `header_size` equals the attribute count — which is
how every `FileInfo` is built in `open_read_stream` (lines 48-59) — the
produced CSV header equals the attribute names joined by commas in their
original order with no trailing delimiter. -/
theorem get_header_fidelity (info : FileInfo)
    (h : info.header_size = info.attributes.length) :
    get_header info = join_comma_spec info.attributes := by
  unfold get_header
  exact get_header_go_eq_join info.attributes 0 info.header_size (by omega)

/-- Witness for C8 at the scenario-2 schema X,Y,Z. -/
theorem get_header_fidelity_witness :
    (FileInfo.mk 3 0 0 0 1 1 1 3 ["X", "Y", "Z"]).header_size =
      (FileInfo.mk 3 0 0 0 1 1 1 3 ["X", "Y", "Z"]).attributes.length ∧
    get_header (FileInfo.mk 3 0 0 0 1 1 1 3 ["X", "Y", "Z"]) =
      join_comma_spec ["X", "Y", "Z"] :=
  ⟨rfl, get_header_fidelity (FileInfo.mk 3 0 0 0 1 1 1 3 ["X", "Y", "Z"]) rfl⟩

/-- The per-attribute value written by `las_to_csv` (lines 341-351): the
raw value is rescaled through the matching axis when the attribute name is
X, Y or Z, and passed through unchanged otherwise. -/
def out_value (info : FileInfo) (name : String) (v : ℚ) : ℚ :=
  if name = "X" then v * info.x_scale + info.x_offset
  else if name = "Y" then v * info.y_scale + info.y_offset
  else if name = "Z" then v * info.z_scale + info.z_offset
  else v

/-- The inner line-building loop of `las_to_csv` (lines 337-359): each
attribute value is converted, stringified and appended, with a comma while
`index < header_size - 1`. -/
def line_for_go (info : FileInfo) : ℕ → List ℚ → String
  | _, [] => ""
  | index, v :: rest =>
      toString (out_value info (info.attributes.getD index "") v) ++
        (if index < info.header_size - 1 then "," else "") ++
        line_for_go info (index + 1) rest

/-- One CSV line for one point record. -/
def line_for (info : FileInfo) (p : List ℚ) : String := line_for_go info 0 p

/-- Embeds the output of `las_to_csv` (lines 308-371) as the list of lines
written to the CSV stream: the header line (line 324) followed by one line
per point record of the doubly nested iteration over `inFile.points`
(lines 333-361); the periodic progress message goes to standard output,
not to the file. -/
def las_to_csv_lines (info : FileInfo)
    (point_groups : List (List (List ℚ))) : List String :=
  get_header info :: (point_groups.flatten).map (line_for info)

/-- Claim C9: for every source point sequence, the LAS-to-CSV writer emits
exactly one line more than the number of point records: the header plus
one line per record. -/
theorem las_to_csv_line_count (info : FileInfo)
    (point_groups : List (List (List ℚ))) :
    (las_to_csv_lines info point_groups).length =
      (point_groups.flatten).length + 1 := by
  simp only [las_to_csv_lines, List.length_cons, List.length_map]

/-- Embeds the mutable state of `WebService.__init__` (lines 168-178). -/
structure WebService where
  service_url : String
  model : String
  frame : String
  epoch : String
  tocsv : Bool
  lang : String
  conversion : String
  projection : String
  westpos : String

/-- The optional keyword arguments of `WebService.single_point`
(line 233); `none` stands for Python's default `None`.  The `type`
argument is omitted: passing it non-None calls the nonexistent method
`setServiceURL` and crashes, so no run exercises it. -/
structure SinglePointArgs where
  projection : Option String
  lang : Option String
  conversion : Option String
  westpos : Option String
  model : Option String
  frame : Option String
  epoch : Option String

/-- The field updates of `single_point` (lines 236-242): each field is
overwritten by its argument when that argument is not None, and kept
otherwise. -/
def single_point_update (ws : WebService) (a : SinglePointArgs) :
    WebService :=
  { ws with
    projection := match a.projection with
      | some v => v
      | none => ws.projection
    lang := match a.lang with
      | some v => v
      | none => ws.lang
    conversion := match a.conversion with
      | some v => v
      | none => ws.conversion
    westpos := match a.westpos with
      | some v => v
      | none => ws.westpos
    model := match a.model with
      | some v => v
      | none => ws.model
    frame := match a.frame with
      | some v => v
      | none => ws.frame
    epoch := match a.epoch with
      | some v => v
      | none => ws.epoch }

/-- The query parameters of the single-point GET request (lines 245-261). -/
structure SinglePointQuery where
  lang : String
  proj : String
  conversion : String
  westpos : String
  model : String
  frame : String
  epoch : String
  x : ℚ
  y : ℚ
  z : ℚ
  zone : Option String

/-- Embeds `WebService.single_point` up to the HTTP transport: the state
update followed by the construction of the request parameters from the
updated state, with the conditional zone parameter (line 261). -/
def single_point (ws : WebService) (x y z : ℚ) (a : SinglePointArgs) :
    WebService × SinglePointQuery :=
  let ws2 := single_point_update ws a
  (ws2,
   { lang := ws2.lang
     proj := ws2.projection
     conversion := ws2.conversion
     westpos := ws2.westpos
     model := ws2.model
     frame := ws2.frame
     epoch := ws2.epoch
     x := x
     y := y
     z := z
     zone := if ws2.projection = "plan" then some "ON-9" else none })

/-- All-None arguments: a subsequent call with no overrides. -/
def no_overrides : SinglePointArgs :=
  ⟨none, none, none, none, none, none, none⟩

theorem match_option_getD (o : Option String) (d : String) :
    (match o with | some v => v | none => d) = o.getD d := by
  cases o <;> rfl

/-- Claim C10: every non-None keyword override of `single_point` persists
on the WebService object after the call (each field becomes the override
when present and keeps its previous value when the argument is None), a
subsequent call with no overrides leaves the state unchanged, and that
subsequent call's request carries the persisted values as its defaults. -/
theorem single_point_overrides_persist (ws : WebService) (x y z : ℚ)
    (a : SinglePointArgs) :
    ((single_point ws x y z a).1.projection =
        a.projection.getD ws.projection) ∧
    ((single_point ws x y z a).1.lang = a.lang.getD ws.lang) ∧
    ((single_point ws x y z a).1.conversion =
        a.conversion.getD ws.conversion) ∧
    ((single_point ws x y z a).1.westpos = a.westpos.getD ws.westpos) ∧
    ((single_point ws x y z a).1.model = a.model.getD ws.model) ∧
    ((single_point ws x y z a).1.frame = a.frame.getD ws.frame) ∧
    ((single_point ws x y z a).1.epoch = a.epoch.getD ws.epoch) ∧
    ((single_point (single_point ws x y z a).1 x y z no_overrides).1 =
        (single_point ws x y z a).1) ∧
    ((single_point (single_point ws x y z a).1 x y z no_overrides).2.proj =
        (single_point ws x y z a).1.projection) ∧
    ((single_point (single_point ws x y z a).1 x y z no_overrides).2.model =
        (single_point ws x y z a).1.model) := by
  refine ⟨?_, ?_, ?_, ?_, ?_, ?_, ?_, ?_, ?_, ?_⟩ <;>
    simp [single_point, single_point_update, no_overrides, match_option_getD]

end LASCSV
